import Mathlib

/-!
Verification of the concurrent resource-management core of the project-memory
server (`scripts/mcp/project-memory-server.py`): the purge-confirmation token
guard, the sliding-window rate limiter, the bounded connection pool, and the
size-bounded collection eviction policy.

Time values (Python `time.time()` floats) are modelled as rationals; machine
integers are modelled as `Int`/`Nat` (no overflow is relevant at these sizes).
Stateful module-level Python globals are modelled by explicit state passing.
-/

/-- State of the purge-confirmation token guard: the module globals
`_pending_purge_token : Optional[str]` and `_purge_token_expires : float`. -/
structure TokenState where
  pending : Option String
  expires : ℚ
deriving DecidableEq

/-- The constant `PURGE_TOKEN_TTL = 60` (seconds). -/
def PURGE_TOKEN_TTL : ℚ := 60

/-- `set_purge_token(token)`: stores the token, stamps the expiry
`time.time() + PURGE_TOKEN_TTL`, and returns the TTL.  The current wall-clock
reading `now` is an explicit argument. -/
def set_purge_token (token : String) (now : ℚ) (_s : TokenState) : TokenState × ℚ :=
  (⟨some token, now + PURGE_TOKEN_TTL⟩, PURGE_TOKEN_TTL)

/-- `validate_and_clear_purge_token(provided_token)`: returns the new guard
state together with `(success, expected_token, remaining_seconds)`.  The Python
guard condition `if _pending_purge_token and now < _purge_token_expires` treats
an empty pending string as absent, hence the `tok ≠ ""` conjunct. -/
def validate_and_clear_purge_token (provided : String) (now : ℚ) (s : TokenState) :
    TokenState × Bool × Option String × ℚ :=
  match s.pending with
  | some tok =>
    if tok ≠ "" ∧ now < s.expires then
      if provided = tok then (⟨none, 0⟩, true, none, 0)
      else (s, false, some tok, s.expires - now)
    else (s, false, none, 0)
  | none => (s, false, none, 0)

/-- Hex digit as produced by Python `bytes.hex().upper()`: digits `0`-`9` then
uppercase `A`-`F`. -/
def hexDigitUpper (n : ℕ) : Char :=
  if n < 10 then Char.ofNat (48 + n) else Char.ofNat (55 + n)

/-- One byte rendered as two uppercase hex characters. -/
def byteHexUpper (b : ℕ) : String :=
  String.mk [hexDigitUpper (b / 16), hexDigitUpper (b % 16)]

/-- `generate_purge_token()`: `"PURGE-" + random.randbytes(16).hex().upper()`.
The 16 bytes drawn from `random.randbytes` are an explicit argument, so the
function is the deterministic formatting applied to them. -/
def generate_purge_token (randomBytes : List ℕ) : String :=
  "PURGE-" ++ String.join (randomBytes.map byteHexUpper)

/-- Python `int()` applied to a float/rational: truncation toward zero. -/
def pyInt (q : ℚ) : ℤ := q.num.tdiv q.den

/-- The `purge_memory` tool handler, step 2 (a `confirm` argument was given):
calls `validate_and_clear_purge_token` and builds the response text exactly as
in `call_tool`.  Returns (new guard state, whether the purge proceeded,
response text).  `int(remaining)` is modelled by `pyInt`. -/
def purge_memory_confirm (confirm : String) (now : ℚ) (s : TokenState) :
    TokenState × Bool × String :=
  let r := validate_and_clear_purge_token confirm now s
  if r.2.1 then
    (r.1, true, "## Memory Purged ⚠️\n\nDeleted:\n")
  else
    match r.2.2.1 with
    | some expected =>
      (r.1, false,
        "❌ Invalid confirmation token.\n\nExpected: `" ++ expected ++
        "`\nReceived: `" ++ confirm ++ "`\n\n⏱️ Token expires in " ++
        toString (pyInt r.2.2.2) ++ " seconds.")
    | none =>
      (r.1, false,
        "❌ No pending purge request or token expired.\n\n" ++
        "Please call purge_memory without confirm parameter first " ++
        "to initiate a new purge request.")

/-- The rate limiter (`RateLimiter` class): `max_ops` and `window_seconds`
configuration plus the `_operations` deque of admitted timestamps, oldest
first. -/
structure RateLimiter where
  max_ops : ℤ
  window_seconds : ℚ
  operations : List ℚ
deriving DecidableEq

/-- `RateLimiter.check()`: trim timestamps older than `now - window_seconds`
from the front of the deque (the `while ... popleft()` loop is a prefix trim,
modelled by `dropWhile`), reject if the remaining count has reached `max_ops`,
otherwise append `now` and admit.  Returns (admitted, new state).
`PersistentRateLimiter.check` applies the same in-memory logic (persistence is
out-of-band and does not affect the admission decision). -/
def RateLimiter.check (now : ℚ) (s : RateLimiter) : Bool × RateLimiter :=
  let cutoff := now - s.window_seconds
  let trimmed := s.operations.dropWhile (fun t => decide (t < cutoff))
  if (trimmed.length : ℤ) < s.max_ops then
    (true, { s with operations := trimmed ++ [now] })
  else
    (false, { s with operations := trimmed })

/-- Run a sequence of `check()` calls at the given (wall-clock) instants,
collecting the instants whose call was admitted. -/
def admittedTimes (s : RateLimiter) : List ℚ → List ℚ
  | [] => []
  | t :: ts =>
    let r := RateLimiter.check t s
    if r.1 then t :: admittedTimes r.2 ts else admittedTimes r.2 ts

/-- `RateLimiter.configure(max_ops, window_seconds)`: validates and assigns the
two fields in source order — `max_ops` is validated and assigned first, then
`window_seconds` — returning the state as left by the call together with the
`ValueError` message if one was raised. -/
def RateLimiter.configure (mo ws : Option ℤ) (s : RateLimiter) :
    RateLimiter × Option String :=
  match mo with
  | some m =>
    if m < 1 then (s, some "max_ops must be at least 1")
    else
      let s1 := { s with max_ops := m }
      match ws with
      | some w =>
        if w < 1 then (s1, some "window_seconds must be at least 1")
        else ({ s1 with window_seconds := (w : ℚ) }, none)
      | none => (s1, none)
  | none =>
    match ws with
    | some w =>
      if w < 1 then (s, some "window_seconds must be at least 1")
      else ({ s with window_seconds := (w : ℚ) }, none)
    | none => (s, none)

/-- Bookkeeping counters of `ConnectionPool`: connections sitting in the
`_pool` queue, pooled connections checked out to callers, the
`_active_temp_connections` counter, and the `_waiting_count` counter.  Each
counter is mutated only inside its own critical section, so a concurrent
execution is an interleaving of the atomic transitions below. -/
structure PoolState where
  avail : ℕ
  out : ℕ
  temp : ℕ
  waiting : ℕ
deriving DecidableEq

/-- Atomic transitions of `ConnectionPool.get_connection` / `_return_connection`
for a pool of size `k`, temp limit `m` (`MAX_TEMP_CONNECTIONS`) and wait-queue
capacity `qcap` (`MAX_WAIT_QUEUE_SIZE`):

* `acquire_pooled`: a successful `self._pool.get_nowait()` (or `get` in the
  wait loop) hands a pooled connection to the caller;
* `temp_reserve`: under `_temp_conn_lock`, `_active_temp_connections < m`
  allows incrementing the counter (a temp connection will be created);
* `temp_create_fail`: `_create_connection()` raised, the counter is
  decremented before propagating;
* `release_temp`: the `finally` block closes a temp connection and decrements;
* `release_pooled_ret` / `release_pooled_close`: `_return_connection` puts the
  connection back with `put_nowait`, which succeeds iff the queue is not full
  (`avail < k`) and otherwise closes the connection;
* `enqueue_wait` / `dequeue_wait`: `_waiting_count` guarded by `qcap`. -/
inductive PoolStep (k m qcap : ℕ) : PoolState → PoolState → Prop
  | acquire_pooled (s : PoolState) (h : 0 < s.avail) :
      PoolStep k m qcap s ⟨s.avail - 1, s.out + 1, s.temp, s.waiting⟩
  | temp_reserve (s : PoolState) (h : s.temp < m) :
      PoolStep k m qcap s ⟨s.avail, s.out, s.temp + 1, s.waiting⟩
  | temp_create_fail (s : PoolState) (h : 0 < s.temp) :
      PoolStep k m qcap s ⟨s.avail, s.out, s.temp - 1, s.waiting⟩
  | release_temp (s : PoolState) (h : 0 < s.temp) :
      PoolStep k m qcap s ⟨s.avail, s.out, s.temp - 1, s.waiting⟩
  | release_pooled_ret (s : PoolState) (h : 0 < s.out) (h2 : s.avail < k) :
      PoolStep k m qcap s ⟨s.avail + 1, s.out - 1, s.temp, s.waiting⟩
  | release_pooled_close (s : PoolState) (h : 0 < s.out) (h2 : k ≤ s.avail) :
      PoolStep k m qcap s ⟨s.avail, s.out - 1, s.temp, s.waiting⟩
  | enqueue_wait (s : PoolState) (h : s.waiting < qcap) :
      PoolStep k m qcap s ⟨s.avail, s.out, s.temp, s.waiting + 1⟩
  | dequeue_wait (s : PoolState) (h : 0 < s.waiting) :
      PoolStep k m qcap s ⟨s.avail, s.out, s.temp, s.waiting - 1⟩

/-- Pool state right after `initialize()`: `pool_size` connections in the
queue, nothing checked out, no temp connections, nobody waiting. -/
def initPoolState (k : ℕ) : PoolState := ⟨k, 0, 0, 0⟩

/-- A pool state reachable from the initialized pool by any interleaving of
the atomic transitions. -/
def PoolReachable (k m qcap : ℕ) (s : PoolState) : Prop :=
  Relation.ReflTransGen (PoolStep k m qcap) (initPoolState k) s

/-- `ProjectMemoryDB._enforce_decision_limit` with capacity `C`
(`MAX_DECISIONS`): if the current count has reached `C`, delete the
`max(1, C // 10)` rows with the smallest `timestamp`.  The decision log is
modelled as its list of timestamps in ascending order (rows are inserted with
the current time, which is nondecreasing), so the SQL
`DELETE ... ORDER BY timestamp ASC LIMIT d` removes the first `d` entries. -/
def enforce_decision_limit (C : ℕ) (l : List ℚ) : List ℚ :=
  if C ≤ l.length then l.drop (max 1 (C / 10)) else l

/-- `ProjectMemoryDB.add_decision`: enforce the limit, then insert a row
stamped with the current time. -/
def add_decision (C : ℕ) (l : List ℚ) (now : ℚ) : List ℚ :=
  enforce_decision_limit C l ++ [now]

/-- A keyed collection (`patterns` by `name`, `context` by `key`) modelled as
an association list of (key, `updated_at`) in rowid (insertion) order. -/
abbrev KeyedMap := List (String × ℚ)

/-- The first entry holding the minimal `updated_at` — the row selected by
`ORDER BY updated_at ASC LIMIT 1` (SQLite breaks the tie by scan order, i.e.
lowest rowid, which is list order here). -/
def lruEntry : KeyedMap → Option (String × ℚ)
  | [] => none
  | p :: rest =>
    match lruEntry rest with
    | none => some p
    | some q => if q.2 < p.2 then some q else some p

/-- `_enforce_pattern_limit` / `_enforce_context_limit` with capacity `C`:
if the count has reached `C`, delete the least-recently-updated entry. -/
def enforce_keyed_limit (C : ℕ) (l : KeyedMap) : KeyedMap :=
  if C ≤ l.length then
    match lruEntry l with
    | some p => l.eraseP (fun q => q.1 == p.1)
    | none => l
  else l

/-- `upsert_pattern` / `set_context` with capacity `C`: enforce the limit,
then `INSERT ... ON CONFLICT(key) DO UPDATE` — update the row in place with a
fresh `updated_at` if the key exists, otherwise append a new row. -/
def upsert_keyed (C : ℕ) (l : KeyedMap) (k : String) (now : ℚ) : KeyedMap :=
  let l1 := enforce_keyed_limit C l
  if l1.any (fun p => p.1 == k) then
    l1.map (fun p => if p.1 == k then (k, now) else p)
  else
    l1 ++ [(k, now)]

/-- `RATE_LIMIT_EXEMPT_OPERATIONS` from the dispatcher, verbatim. -/
def rateLimitExemptOps : List String :=
  ["import_memory", "export_memory", "health_check", "memory_stats", "purge_memory"]

/-- The tools whose `call_tool` branch executes a store mutation:
`remember_decision` (`add_decision`), `store_pattern` (`upsert_pattern`),
`set_context` (`set_context`), `import_memory` (`import_data`) and
`purge_memory` (`purge_all`). -/
def mutatingOps : List String :=
  ["remember_decision", "store_pattern", "set_context", "import_memory", "purge_memory"]

/-- Whether `call_tool` consults `limiter.check()` for a tool: the dispatcher
guard is `if name not in RATE_LIMIT_EXEMPT_OPERATIONS`. -/
def rateLimitChecked (name : String) : Bool :=
  !(rateLimitExemptOps.contains name)

/-- `validate_and_clear_purge_token` reports success exactly when a non-empty
token is pending, unexpired, and equal to the provided one. -/
lemma validate_success_iff (p : String) (now : ℚ) (s : TokenState) :
    (validate_and_clear_purge_token p now s).2.1 = true ↔
      s.pending = some p ∧ p ≠ "" ∧ now < s.expires := by
  unfold validate_and_clear_purge_token
  cases hp : s.pending with
  | none => simp
  | some tok =>
    by_cases h1 : tok ≠ "" ∧ now < s.expires
    · by_cases h2 : p = tok
      · subst h2; simp [h1]
      · simp only [if_pos h1, if_neg h2]
        simp only [Option.some.injEq]
        constructor
        · intro h; cases h
        · rintro ⟨h, -⟩; exact absurd h.symm h2
    · simp only [if_neg h1]
      simp only [Option.some.injEq]
      constructor
      · intro h; cases h
      · rintro ⟨rfl, h2, h3⟩; exact absurd ⟨h2, h3⟩ h1

/-- The purge proceeds exactly when `validate_and_clear_purge_token`
succeeded. -/
lemma purge_confirm_proceeds (c : String) (now : ℚ) (s : TokenState) :
    (purge_memory_confirm c now s).2.1 = (validate_and_clear_purge_token c now s).2.1 := by
  unfold purge_memory_confirm
  cases hb : (validate_and_clear_purge_token c now s).2.1 <;>
    simp only [hb, if_pos, if_neg, Bool.false_eq_true, if_false, if_true]
  cases (validate_and_clear_purge_token c now s).2.2.1 <;> rfl

/-- C10: `RateLimiter.configure` rejects `max_ops < 1` and
`window_seconds < 1` with a `ValueError`, but the update is not atomic on
error: with a valid `max_ops` and an invalid `window_seconds` in the same
call, `max_ops` has already been changed when the error is raised. -/
theorem c10_configure_nonatomic (s : RateLimiter) (m w : ℤ) :
    (m < 1 → RateLimiter.configure (some m) (some w) s =
        (s, some "max_ops must be at least 1")) ∧
    (1 ≤ m → w < 1 →
      (RateLimiter.configure (some m) (some w) s).2 =
          some "window_seconds must be at least 1" ∧
      (RateLimiter.configure (some m) (some w) s).1.max_ops = m ∧
      (RateLimiter.configure (some m) (some w) s).1.window_seconds = s.window_seconds ∧
      (RateLimiter.configure (some m) (some w) s).1.operations = s.operations) ∧
    (1 ≤ m → 1 ≤ w →
      (RateLimiter.configure (some m) (some w) s).2 = none ∧
      (RateLimiter.configure (some m) (some w) s).1.max_ops = m ∧
      (RateLimiter.configure (some m) (some w) s).1.window_seconds = (w : ℚ)) := by
  refine ⟨fun hm => ?_, fun hm hw => ?_, fun hm hw => ?_⟩
  · simp [RateLimiter.configure, if_pos hm]
  · have hm' : ¬ m < 1 := by omega
    simp [RateLimiter.configure, if_neg hm', if_pos hw]
  · have hm' : ¬ m < 1 := by omega
    have hw' : ¬ w < 1 := by omega
    simp [RateLimiter.configure, if_neg hm', if_neg hw']

/-- Witness for C10 at `max_ops = 5`, `window_seconds = 0` on a limiter
configured as `(100, 60)`. -/
theorem c10_witness :
    (RateLimiter.configure (some 5) (some 0) ⟨100, 60, []⟩).2 =
        some "window_seconds must be at least 1" ∧
    (RateLimiter.configure (some 5) (some 0) ⟨100, 60, []⟩).1.max_ops = 5 := by
  have h := (c10_configure_nonatomic ⟨100, 60, []⟩ 5 0).2.1 (by decide) (by decide)
  exact ⟨h.1, h.2.1⟩

/-- C6: the confirmation-token state machine.  (1) `issue` always replaces:
after `set_purge_token` the pending token is the new one with expiry
`now + PURGE_TOKEN_TTL`, whatever the previous state.  (2) Issuing twice in
succession invalidates the first token: after issuing `t₁` then `t₂ ≠ t₁`,
validating `t₁` fails at any time.  (3) A matching `validate_and_consume`
clears the state (Pending → Empty), and (4) nothing validates on the cleared
state, so a validated token cannot validate a second time.  (5) A token
presented at or after its expiry is rejected. -/
theorem c6_token_state_machine :
    (∀ (s : TokenState) (t : String) (now : ℚ),
        (set_purge_token t now s).1 = ⟨some t, now + PURGE_TOKEN_TTL⟩) ∧
    (∀ (s : TokenState) (t₁ t₂ : String) (n₁ n₂ n₃ : ℚ), t₁ ≠ t₂ →
        (validate_and_clear_purge_token t₁ n₃
          (set_purge_token t₂ n₂ (set_purge_token t₁ n₁ s).1).1).2.1 = false) ∧
    (∀ (s : TokenState) (t : String) (now : ℚ),
        (validate_and_clear_purge_token t now s).2.1 = true →
        (validate_and_clear_purge_token t now s).1 = ⟨none, 0⟩) ∧
    (∀ (e : ℚ) (t : String) (now : ℚ),
        (validate_and_clear_purge_token t now ⟨none, e⟩).2.1 = false) ∧
    (∀ (s : TokenState) (t : String) (now : ℚ), s.expires ≤ now →
        (validate_and_clear_purge_token t now s).2.1 = false) := by
  refine ⟨fun s t now => rfl, ?_, ?_, fun e t now => rfl, ?_⟩
  · intro s t₁ t₂ n₁ n₂ n₃ hne
    show (validate_and_clear_purge_token t₁ n₃ ⟨some t₂, n₂ + PURGE_TOKEN_TTL⟩).2.1 = false
    unfold validate_and_clear_purge_token
    by_cases h1 : t₂ ≠ "" ∧ n₃ < (⟨some t₂, n₂ + PURGE_TOKEN_TTL⟩ : TokenState).expires
    · simp [h1, hne]
    · simp [h1]
  · intro s t now h
    rw [validate_success_iff] at h
    obtain ⟨hp, hne, hlt⟩ := h
    unfold validate_and_clear_purge_token
    simp [hp, hne, hlt]
  · intro s t now hle
    unfold validate_and_clear_purge_token
    cases hp : s.pending with
    | none => rfl
    | some tok =>
      have h1 : ¬ (tok ≠ "" ∧ now < s.expires) := by
        rintro ⟨-, h2⟩; exact absurd hle (not_le.mpr h2)
      simp [h1]

/-- Witness for C6: a concrete run — issue `"PURGE-AA"`, re-issue
`"PURGE-BB"`, the first token no longer validates; a successful validation
clears the state; validation at the expiry instant is rejected. -/
theorem c6_witness :
    (set_purge_token "PURGE-BB" 10 ⟨some "PURGE-AA", 60⟩).1 =
        ⟨some "PURGE-BB", 10 + PURGE_TOKEN_TTL⟩ ∧
    (validate_and_clear_purge_token "PURGE-AA" 20
      (set_purge_token "PURGE-BB" 10
        (set_purge_token "PURGE-AA" 0 ⟨none, 0⟩).1).1).2.1 = false ∧
    (validate_and_clear_purge_token "PURGE-AA" 70 ⟨some "PURGE-AA", 60⟩).2.1 = false := by
  refine ⟨c6_token_state_machine.1 _ _ _, ?_, ?_⟩
  · exact c6_token_state_machine.2.1 ⟨none, 0⟩ "PURGE-AA" "PURGE-BB" 0 10 20 (by decide)
  · exact c6_token_state_machine.2.2.2.2 ⟨some "PURGE-AA", 60⟩ "PURGE-AA" 70 (by decide)

/-- C9 (at the failing input): `generate_purge_token` applied to the 16 bytes
`DE AD BE EF 00 11 22 33 44 55 66 77 88 99 AA BB` yields the fixed prefix
`PURGE-` followed by exactly 32 uppercase hex characters.  The format part of
the claim holds; the randomness part does not: the bytes come from
`random.randbytes` (Mersenne Twister), not a cryptographic source, contrary to
the function's own docstring. -/
theorem c9_token_format_at_failing_input :
    generate_purge_token
        [222, 173, 190, 239, 0, 17, 34, 51, 68, 85, 102, 119, 136, 153, 170, 187] =
      "PURGE-DEADBEEF00112233445566778899AABB" ∧
    (generate_purge_token
        [222, 173, 190, 239, 0, 17, 34, 51, 68, 85, 102, 119, 136, 153, 170, 187]).length
      = 6 + 32 := by
  exact ⟨by decide, by decide⟩

/-- C2 counterexample: `import_memory` and `purge_memory` both execute store
mutations (`import_data`, `purge_all`), yet both are members of
`RATE_LIMIT_EXEMPT_OPERATIONS`, so `call_tool` never calls `limiter.check()`
for them — refuting "every mutating operation path passes rate_limit.check()"
and "only read-only/administrative operations are exempt". -/
theorem c2_exempt_mutating_counterexample :
    mutatingOps.contains "import_memory" = true ∧
    rateLimitChecked "import_memory" = false ∧
    mutatingOps.contains "purge_memory" = true ∧
    rateLimitChecked "purge_memory" = false := by decide

/-- C2 amended: every mutating operation other than the bulk `import_memory`
and the confirmation-guarded `purge_memory` passes `rate_limit.check()`; the
exempt set consists of the read-only/administrative `export_memory`,
`health_check` and `memory_stats` plus those two mutating operations; and the
destructive `purge_memory` executes the purge only after
`validate_and_clear_purge_token` accepts a matching, unexpired token. -/
theorem c2_rate_limit_amended :
    (∀ name ∈ mutatingOps, name ≠ "import_memory" → name ≠ "purge_memory" →
        rateLimitChecked name = true) ∧
    (∀ name ∈ rateLimitExemptOps, mutatingOps.contains name = true →
        name = "import_memory" ∨ name = "purge_memory") ∧
    (∀ (confirm : String) (now : ℚ) (s : TokenState),
        (purge_memory_confirm confirm now s).2.1 = true →
        s.pending = some confirm ∧ now < s.expires) := by
  refine ⟨by decide, by decide, ?_⟩
  intro confirm now s h
  rw [purge_confirm_proceeds, validate_success_iff] at h
  exact ⟨h.1, h.2.2⟩

/-- Witness for C2 amended: `remember_decision` is mutating and rate-limit
checked, and a concrete successful purge confirmation implies the token was
the pending one. -/
theorem c2_amended_witness :
    rateLimitChecked "remember_decision" = true ∧
    ((purge_memory_confirm "PURGE-CC" 30 ⟨some "PURGE-CC", 60⟩).2.1 = true →
      (⟨some "PURGE-CC", 60⟩ : TokenState).pending = some "PURGE-CC" ∧
        (30 : ℚ) < (⟨some "PURGE-CC", 60⟩ : TokenState).expires) := by
  exact ⟨c2_rate_limit_amended.1 "remember_decision" (by decide) (by decide) (by decide),
    c2_rate_limit_amended.2.2 "PURGE-CC" 30 ⟨some "PURGE-CC", 60⟩⟩

/-- C1 counterexample: with `PURGE-1234ABCD` pending and unexpired, calling
`purge_memory` with the non-matching token `WRONG` returns an error text that
contains the pending secret token itself (the handler prints
"Expected: `<token>`").  This refutes "the error ... never contains the
pending secret token value". -/
theorem c1_token_leak_counterexample :
    ∃ pre post : String,
      (purge_memory_confirm "WRONG" 50 ⟨some "PURGE-1234ABCD", 100⟩).2.2 =
        pre ++ "PURGE-1234ABCD" ++ post :=
  ⟨"❌ Invalid confirmation token.\n\nExpected: `",
   "`\nReceived: `" ++ "WRONG" ++ "`\n\n⏱️ Token expires in " ++
     toString (pyInt ((100 : ℚ) - 50)) ++ " seconds.",
   rfl⟩

/-- C1 amended: on a non-matching token while a non-empty token is pending
and unexpired, the surfaced error reports the remaining TTL *and* echoes the
pending secret token value — the secret appears in the mismatch error, not
only in the original issuing response. -/
theorem c1_mismatch_error_amended (s : TokenState) (t provided : String) (now : ℚ)
    (hp : s.pending = some t) (hne : t ≠ "") (hexp : now < s.expires)
    (hm : provided ≠ t) :
    (purge_memory_confirm provided now s).2.2 =
      "❌ Invalid confirmation token.\n\nExpected: `" ++ t ++
        "`\nReceived: `" ++ provided ++ "`\n\n⏱️ Token expires in " ++
        toString (pyInt (s.expires - now)) ++ " seconds." ∧
    ∃ pre post : String, (purge_memory_confirm provided now s).2.2 = pre ++ t ++ post := by
  have hv : validate_and_clear_purge_token provided now s =
      (s, false, some t, s.expires - now) := by
    unfold validate_and_clear_purge_token
    simp [hp, hne, hexp, hm]
  constructor
  · unfold purge_memory_confirm
    rw [hv]
    rfl
  · refine ⟨"❌ Invalid confirmation token.\n\nExpected: `",
      "`\nReceived: `" ++ provided ++ "`\n\n⏱️ Token expires in " ++
        toString (pyInt (s.expires - now)) ++ " seconds.", ?_⟩
    unfold purge_memory_confirm
    rw [hv]
    simp [String.append_assoc]

/-- Witness for C1 amended, at a concrete pending token and mismatching
input. -/
theorem c1_amended_witness :
    (purge_memory_confirm "PURGE-0000" 10 ⟨some "PURGE-FFFF", 60⟩).2.2 =
      "❌ Invalid confirmation token.\n\nExpected: `" ++ "PURGE-FFFF" ++
        "`\nReceived: `" ++ "PURGE-0000" ++ "`\n\n⏱️ Token expires in " ++
        toString (pyInt ((⟨some "PURGE-FFFF", 60⟩ : TokenState).expires - 10)) ++
        " seconds." :=
  (c1_mismatch_error_amended ⟨some "PURGE-FFFF", 60⟩ "PURGE-FFFF" "PURGE-0000" 10
    rfl (by decide) (by decide) (by decide)).1

/-- Inductive invariant of the pool counters: pooled connections are conserved
(`avail + out ≤ k`), the temp counter never exceeds `MAX_TEMP_CONNECTIONS`,
and the wait queue never exceeds its capacity. -/
lemma pool_counters_invariant (k m qcap : ℕ) (s : PoolState)
    (h : PoolReachable k m qcap s) :
    s.avail + s.out ≤ k ∧ s.temp ≤ m ∧ s.waiting ≤ qcap := by
  induction h with
  | refl => simp [initPoolState]
  | tail _ hstep ih => cases hstep <;> dsimp only at ih ⊢ <;> omega

/-- C4: in every interleaving of concurrent `get_connection`/release pairs on
a pool of size `k` with temp limit `m`, at no instant are more than `k + m`
handles outstanding.  Outstanding handles are the checked-out pooled
connections plus the live temporary connections; the latter are bounded by the
`_active_temp_connections` counter, since a temp connection holds its
reservation from before creation until after close. -/
theorem c4_pool_outstanding_bound (k m qcap : ℕ) (s : PoolState)
    (h : PoolReachable k m qcap s) : s.out + s.temp ≤ k + m := by
  have hinv := pool_counters_invariant k m qcap s h
  omega

/-- Witness for C4: with pool size 2, temp limit 1, queue capacity 1, the
state after one pooled acquisition and one temp reservation is reachable and
within the bound. -/
theorem c4_witness :
    (⟨1, 1, 1, 0⟩ : PoolState).out + (⟨1, 1, 1, 0⟩ : PoolState).temp ≤ 2 + 1 := by
  have h1 : PoolStep 2 1 1 (initPoolState 2) ⟨1, 1, 0, 0⟩ :=
    PoolStep.acquire_pooled _ (by decide)
  have h2 : PoolStep 2 1 1 ⟨1, 1, 0, 0⟩ ⟨1, 1, 1, 0⟩ :=
    PoolStep.temp_reserve _ (by decide)
  exact c4_pool_outstanding_bound 2 1 1 _
    (Relation.ReflTransGen.tail (Relation.ReflTransGen.tail Relation.ReflTransGen.refl h1) h2)

/-- `lruEntry` only returns `none` on the empty map. -/
lemma lruEntry_eq_none {l : KeyedMap} (h : lruEntry l = none) : l = [] := by
  cases l with
  | nil => rfl
  | cons a rest =>
    unfold lruEntry at h
    cases hr : lruEntry rest with
    | none => rw [hr] at h; cases h
    | some q => rw [hr] at h; by_cases hlt : q.2 < a.2 <;> simp [hlt] at h

/-- The entry selected by `lruEntry` belongs to the map and has the minimal
`updated_at`. -/
lemma lruEntry_spec : ∀ {l : KeyedMap} {p : String × ℚ},
    lruEntry l = some p → p ∈ l ∧ ∀ x ∈ l, p.2 ≤ x.2 := by
  intro l
  induction l with
  | nil => intro p h; cases h
  | cons a rest ih =>
    intro p h
    unfold lruEntry at h
    cases hr : lruEntry rest with
    | none =>
      rw [hr] at h
      injection h with h
      subst h
      have : rest = [] := lruEntry_eq_none hr
      subst this
      exact ⟨List.mem_singleton_self _, by intro x hx; simp at hx; subst hx; exact le_refl _⟩
    | some q =>
      rw [hr] at h
      dsimp only at h
      obtain ⟨hm, hmin⟩ := ih hr
      by_cases hlt : q.2 < a.2
      · rw [if_pos hlt] at h
        injection h with h
        subst h
        refine ⟨List.mem_cons_of_mem _ hm, ?_⟩
        intro x hx
        rcases List.mem_cons.mp hx with rfl | hx'
        · exact le_of_lt hlt
        · exact hmin x hx'
      · rw [if_neg hlt] at h
        injection h with h
        subst h
        refine ⟨List.mem_cons_self _ _, ?_⟩
        intro x hx
        rcases List.mem_cons.mp hx with rfl | hx'
        · exact le_refl _
        · exact le_trans (not_lt.mp hlt) (hmin x hx')

/-- One `add_decision` keeps the log within capacity. -/
lemma add_decision_within (C : ℕ) (hC : 1 ≤ C) (l : List ℚ) (now : ℚ)
    (h : l.length ≤ C) : (add_decision C l now).length ≤ C := by
  unfold add_decision enforce_decision_limit
  by_cases hge : C ≤ l.length
  · have hd : 1 ≤ max 1 (C / 10) := le_max_left _ _
    simp only [if_pos hge, List.length_append, List.length_drop, List.length_cons,
      List.length_nil]
    omega
  · simp only [if_neg hge, List.length_append, List.length_cons, List.length_nil]
    omega

/-- One `upsert_keyed` keeps the keyed map within capacity — whether the key
is fresh (append after possible eviction) or already present (in-place
update). -/
lemma upsert_keyed_within (C : ℕ) (hC : 1 ≤ C) (l : KeyedMap) (k : String) (now : ℚ)
    (h : l.length ≤ C) : (upsert_keyed C l k now).length ≤ C := by
  unfold upsert_keyed enforce_keyed_limit
  by_cases hge : C ≤ l.length
  · have hne : l ≠ [] := by
      intro h0
      subst h0
      simp at hge
      omega
    cases hp : lruEntry l with
    | none => exact absurd (lruEntry_eq_none hp) hne
    | some p =>
      have hmem := (lruEntry_spec hp).1
      have hlen : (l.eraseP (fun q => q.1 == p.1)).length + 1 = l.length :=
        List.length_eraseP_add_one hmem (by simp)
      simp only [if_pos hge, hp]
      by_cases hany : (l.eraseP (fun q => q.1 == p.1)).any (fun q => q.1 == k)
      · simp only [hany, if_pos, List.length_map]
        omega
      · simp only [hany, Bool.false_eq_true, if_false, List.length_append,
          List.length_cons, List.length_nil]
        omega
  · simp only [if_neg hge]
    by_cases hany : l.any (fun q => q.1 == k)
    · simp only [hany, if_pos, List.length_map]
      omega
    · simp only [hany, Bool.false_eq_true, if_false, List.length_append,
        List.length_cons, List.length_nil]
      omega

/-- C5: starting from any state within capacity, `size ≤ capacity` holds
after every single insert of any insert sequence — for the append-only
decision log under `add_decision` and for the keyed pattern/context maps
under upsert.  (Quantifying over all sequences `ts`/`ins` covers every
intermediate state: the state after the `i`-th insert is the fold over the
length-`i` prefix.) -/
theorem c5_bounded_after_every_insert (C : ℕ) (hC : 1 ≤ C) :
    (∀ l : List ℚ, l.length ≤ C → ∀ ts : List ℚ,
        (ts.foldl (add_decision C) l).length ≤ C) ∧
    (∀ l : KeyedMap, l.length ≤ C → ∀ ins : List (String × ℚ),
        (ins.foldl (fun acc p => upsert_keyed C acc p.1 p.2) l).length ≤ C) := by
  constructor
  · intro l h ts
    induction ts generalizing l with
    | nil => exact h
    | cons t ts ih => exact ih _ (add_decision_within C hC l t h)
  · intro l h ins
    induction ins generalizing l with
    | nil => exact h
    | cons p ins ih => exact ih _ (upsert_keyed_within C hC l p.1 p.2 h)

/-- Witness for C5: three inserts into an empty decision log of capacity 2
stay within capacity (the third insert evicts the oldest entry first), and
likewise for three upserts into a keyed map of capacity 2. -/
theorem c5_witness :
    ([(1 : ℚ), 2, 3].foldl (add_decision 2) []).length ≤ 2 ∧
    (([("a", (1 : ℚ)), ("b", 2), ("c", 3)].foldl
        (fun acc p => upsert_keyed 2 acc p.1 p.2) []).length ≤ 2) ∧
    [(1 : ℚ), 2, 3].foldl (add_decision 2) [] = [2, 3] := by
  refine ⟨(c5_bounded_after_every_insert 2 (by decide)).1 [] (by decide) _,
    (c5_bounded_after_every_insert 2 (by decide)).2 [] (by decide) _, by decide⟩

/-- C7 counterexample: on a keyed map at capacity `C = 2`, upserting the
*existing* key `"b"` — an update that would not grow the collection past its
capacity — still runs eviction and removes the least-recently-updated entry
`("a", 1)`, so the map shrinks to one entry.  This refutes "eviction runs
only before an insert that would grow a collection past its capacity". -/
theorem c7_eviction_counterexample :
    (([("a", (1 : ℚ)), ("b", 2)] : KeyedMap).any (fun p => p.1 == "b") = true) ∧
    upsert_keyed 2 [("a", 1), ("b", 2)] "b" 3 = [("b", 3)] ∧
    ("a", (1 : ℚ)) ∈ ([("a", 1), ("b", 2)] : KeyedMap) ∧
    ("a", (1 : ℚ)) ∉ upsert_keyed 2 [("a", 1), ("b", 2)] "b" 3 := by decide

/-- C7 amended: eviction runs exactly when the collection is at (or beyond)
capacity at insert time — for keyed maps even when the insert is an in-place
update that would not grow the map.  When it runs: the decision log drops
exactly the oldest `max(1, C/10)` entries by timestamp, and a keyed map drops
exactly one entry, one with minimal `updated_at`. -/
theorem c7_eviction_amended (C : ℕ) (hC : 1 ≤ C) :
    (∀ l : List ℚ, l.length < C → enforce_decision_limit C l = l) ∧
    (∀ l : List ℚ, l.Sorted (· ≤ ·) → C ≤ l.length →
      ∃ removed : List ℚ, removed.length = max 1 (C / 10) ∧
        l = removed ++ enforce_decision_limit C l ∧
        ∀ x ∈ removed, ∀ y ∈ enforce_decision_limit C l, x ≤ y) ∧
    (∀ l : KeyedMap, l.length < C → enforce_keyed_limit C l = l) ∧
    (∀ l : KeyedMap, C ≤ l.length →
      ∃ p : String × ℚ, p ∈ l ∧ (∀ x ∈ l, p.2 ≤ x.2) ∧
        enforce_keyed_limit C l = l.eraseP (fun q => q.1 == p.1) ∧
        (enforce_keyed_limit C l).length + 1 = l.length) := by
  refine ⟨?_, ?_, ?_, ?_⟩
  · intro l h
    unfold enforce_decision_limit
    rw [if_neg (by omega)]
  · intro l hsort hge
    have hd : max 1 (C / 10) ≤ l.length := by
      have : C / 10 ≤ C := Nat.div_le_self _ _
      omega
    refine ⟨l.take (max 1 (C / 10)), ?_, ?_, ?_⟩
    · simp [List.length_take]
      omega
    · unfold enforce_decision_limit
      rw [if_pos hge, List.take_append_drop]
    · unfold enforce_decision_limit
      rw [if_pos hge]
      have hpair : List.Pairwise (· ≤ ·)
          (l.take (max 1 (C / 10)) ++ l.drop (max 1 (C / 10))) := by
        rw [List.take_append_drop]
        exact hsort
      exact fun x hx y hy => (List.pairwise_append.mp hpair).2.2 x hx y hy
  · intro l h
    unfold enforce_keyed_limit
    rw [if_neg (by omega)]
  · intro l hge
    have hne : l ≠ [] := by
      intro h0
      subst h0
      simp at hge
      omega
    cases hp : lruEntry l with
    | none => exact absurd (lruEntry_eq_none hp) hne
    | some p =>
      obtain ⟨hmem, hmin⟩ := lruEntry_spec hp
      have hlen : (l.eraseP (fun q => q.1 == p.1)).length + 1 = l.length :=
        List.length_eraseP_add_one hmem (by simp)
      refine ⟨p, hmem, hmin, ?_, ?_⟩
      · unfold enforce_keyed_limit
        rw [if_pos hge, hp]
      · unfold enforce_keyed_limit
        rw [if_pos hge, hp]
        exact hlen

/-- Witness for C7 amended, at capacity 3: a full sorted decision log of
length 3 evicts exactly its oldest entry, and a full keyed map evicts exactly
one minimal-`updated_at` entry. -/
theorem c7_amended_witness :
    (∃ removed : List ℚ, removed.length = max 1 (3 / 10) ∧
      [(1 : ℚ), 2, 3] = removed ++ enforce_decision_limit 3 [1, 2, 3] ∧
      ∀ x ∈ removed, ∀ y ∈ enforce_decision_limit 3 [(1 : ℚ), 2, 3], x ≤ y) ∧
    (∃ p : String × ℚ, p ∈ ([("a", 5), ("b", 4)] : KeyedMap) ∧
      (∀ x ∈ ([("a", (5 : ℚ)), ("b", 4)] : KeyedMap), p.2 ≤ x.2) ∧
      enforce_keyed_limit 2 [("a", 5), ("b", 4)] =
        ([("a", 5), ("b", 4)] : KeyedMap).eraseP (fun q => q.1 == p.1) ∧
      (enforce_keyed_limit 2 [("a", (5 : ℚ)), ("b", 4)]).length + 1 = 2) :=
  ⟨(c7_eviction_amended 3 (by decide)).2.1 [1, 2, 3] (by decide) (by decide),
   (c7_eviction_amended 2 (by decide)).2.2.2 [("a", 5), ("b", 4)] (by decide)⟩

/-- On a list sorted ascending, the front trim `while ops and ops[0] < cutoff:
popleft()` removes exactly the stale timestamps: `dropWhile` coincides with
`filter`. -/
lemma sorted_dropWhile_lt (c : ℚ) (l : List ℚ) (h : l.Sorted (· ≤ ·)) :
    l.dropWhile (fun t => decide (t < c)) = l.filter (fun t => decide (c ≤ t)) := by
  induction l with
  | nil => rfl
  | cons a rest ih =>
    by_cases ha : a < c
    · rw [List.dropWhile_cons_of_pos (by simpa using ha), List.filter_cons,
        if_neg (by simpa using not_le.mpr ha)]
      exact ih h.of_cons
    · have hca : c ≤ a := not_lt.mp ha
      rw [List.dropWhile_cons_of_neg (by simpa using ha), List.filter_cons,
        if_pos (by simpa using hca)]
      have : rest.filter (fun t => decide (c ≤ t)) = rest :=
        List.filter_eq_self.mpr fun x hx =>
          decide_eq_true (le_trans hca (List.rel_of_sorted_cons h x hx))
      rw [this]

/-- Filtering by a larger cutoff subsumes a previous filter by a smaller
one. -/
lemma filter_cutoff_subsume (c c' : ℚ) (h : c ≤ c') (l : List ℚ) :
    (l.filter (fun t => decide (c ≤ t))).filter (fun t => decide (c' ≤ t)) =
      l.filter (fun t => decide (c' ≤ t)) := by
  rw [List.filter_filter]
  apply List.filter_congr
  intro x _
  by_cases hcx : c' ≤ x
  · simp [hcx, le_trans h hcx]
  · simp [hcx]

/-- Unfolding equation for `admittedTimes`. -/
lemma admittedTimes_cons (s : RateLimiter) (t : ℚ) (ts : List ℚ) :
    admittedTimes s (t :: ts) =
      if (RateLimiter.check t s).1 then t :: admittedTimes (RateLimiter.check t s).2 ts
      else admittedTimes (RateLimiter.check t s).2 ts := rfl

/-- `check` on a state whose deque is the `c`-cutoff view of a sorted history
`A` of admitted times: the trim advances the view to the new cutoff
`t - W`, and on admission the appended `t` keeps the view shape. -/
lemma check_on_filtered_state (M : ℤ) (W c t : ℚ) (A : List ℚ)
    (hA : A.Sorted (· ≤ ·)) (hc : c ≤ t - W) (hW : 0 ≤ W) :
    RateLimiter.check t ⟨M, W, A.filter (fun x => decide (c ≤ x))⟩ =
      if ((A.filter (fun x => decide (t - W ≤ x))).length : ℤ) < M then
        (true, ⟨M, W, (A ++ [t]).filter (fun x => decide (t - W ≤ x))⟩)
      else (false, ⟨M, W, A.filter (fun x => decide (t - W ≤ x))⟩) := by
  have htrim : (A.filter (fun x => decide (c ≤ x))).dropWhile
      (fun x => decide (x < t - W)) = A.filter (fun x => decide (t - W ≤ x)) := by
    rw [sorted_dropWhile_lt _ _ (List.Pairwise.filter _ hA),
      filter_cutoff_subsume c (t - W) hc A]
  have happ : (A ++ [t]).filter (fun x => decide (t - W ≤ x)) =
      A.filter (fun x => decide (t - W ≤ x)) ++ [t] := by
    rw [List.filter_append, List.filter_cons, if_pos (by simpa using sub_le_self t hW)]
    rfl
  unfold RateLimiter.check
  dsimp only
  rw [htrim, happ]

/-- Window-counting invariant for a run of `check()` calls at nondecreasing
instants: if the deque is the `c`-cutoff view of the sorted admitted history
`A`, the history precedes the remaining instants, every remaining instant's
cutoff is at least `c`, and at most `M` of `A` lie in the window
`[a, a + W]`, then after the whole run at most `M` admitted instants lie in
that window. -/
lemma admitted_window_bound (M : ℤ) (W a : ℚ) (hW : 0 ≤ W) :
    ∀ (ts A : List ℚ) (c : ℚ),
      ts.Sorted (· ≤ ·) → A.Sorted (· ≤ ·) →
      (∀ x ∈ A, ∀ u ∈ ts, x ≤ u) →
      (∀ u ∈ ts, c ≤ u - W) →
      ((A.filter (fun x => decide (a ≤ x ∧ x ≤ a + W))).length : ℤ) ≤ M →
      (((A ++ admittedTimes ⟨M, W, A.filter (fun x => decide (c ≤ x))⟩ ts).filter
          (fun x => decide (a ≤ x ∧ x ≤ a + W))).length : ℤ) ≤ M := by
  intro ts
  induction ts with
  | nil =>
    intro A c _ _ _ _ hcount
    simpa [admittedTimes] using hcount
  | cons t rest ih =>
    intro A c h1 h2 h3 h4 hcount
    have hct : c ≤ t - W := h4 t (List.mem_cons_self _ _)
    have h4' : ∀ u ∈ rest, t - W ≤ u - W := fun u hu =>
      sub_le_sub_right (List.rel_of_sorted_cons h1 u hu) W
    rw [admittedTimes_cons, check_on_filtered_state M W c t A h2 hct hW]
    by_cases hlt : ((A.filter (fun x => decide (t - W ≤ x))).length : ℤ) < M
    · rw [if_pos hlt]
      dsimp only
      rw [if_pos rfl]
      have hA' : (A ++ [t]).Sorted (· ≤ ·) := by
        refine List.pairwise_append.mpr ⟨h2, List.sorted_singleton t, ?_⟩
        intro x hx y hy
        rw [List.mem_singleton] at hy
        rw [hy]
        exact h3 x hx t (List.mem_cons_self _ _)
      have h3' : ∀ x ∈ A ++ [t], ∀ u ∈ rest, x ≤ u := by
        intro x hx u hu
        rcases List.mem_append.mp hx with hxa | hxt
        · exact h3 x hxa u (List.mem_cons_of_mem _ hu)
        · rw [List.mem_singleton] at hxt
          rw [hxt]
          exact List.rel_of_sorted_cons h1 u hu
      have hcount' :
          (((A ++ [t]).filter (fun x => decide (a ≤ x ∧ x ≤ a + W))).length : ℤ) ≤ M := by
        rw [List.filter_append]
        by_cases hwt : a ≤ t ∧ t ≤ a + W
        · have hmono : (A.filter (fun x => decide (a ≤ x ∧ x ≤ a + W))).length ≤
              (A.filter (fun x => decide (t - W ≤ x))).length := by
            rw [← List.countP_eq_length_filter, ← List.countP_eq_length_filter]
            apply List.countP_mono_left
            intro x _ hpx
            have hax : a ≤ x ∧ x ≤ a + W := of_decide_eq_true hpx
            exact decide_eq_true (le_trans (by linarith [hwt.2]) hax.1)
          rw [List.filter_cons, if_pos (decide_eq_true hwt)]
          simp only [List.filter_nil, List.length_append, List.length_cons,
            List.length_nil]
          omega
        · rw [List.filter_cons, if_neg (by simpa using hwt)]
          simpa using hcount
      have hrec := ih (A ++ [t]) (t - W) h1.of_cons hA' h3' h4' hcount'
      rw [show A ++ t :: admittedTimes
            ⟨M, W, (A ++ [t]).filter (fun x => decide (t - W ≤ x))⟩ rest =
          (A ++ [t]) ++ admittedTimes
            ⟨M, W, (A ++ [t]).filter (fun x => decide (t - W ≤ x))⟩ rest from by simp]
      exact hrec
    · rw [if_neg hlt]
      dsimp only
      rw [if_neg (by simp)]
      exact ih A (t - W) h1.of_cons h2
        (fun x hx u hu => h3 x hx u (List.mem_cons_of_mem _ hu)) h4' hcount

/-- C3: over any run of `check()` calls at nondecreasing wall-clock instants
on a limiter with budget `max_ops = M ≥ 0` and window `W ≥ 0`, at most `M`
calls whose instants lie in any window `[a, a + W]` of length `W` are
admitted — regardless of arrival pattern (the per-call trim + count + append
is a single critical section, so a concurrent execution is some such
serialized run). -/
theorem c3_sliding_window_bound (M : ℤ) (hM : 0 ≤ M) (W : ℚ) (hW : 0 ≤ W)
    (ts : List ℚ) (hts : ts.Sorted (· ≤ ·)) (a : ℚ) :
    (((admittedTimes ⟨M, W, []⟩ ts).filter
        (fun x => decide (a ≤ x ∧ x ≤ a + W))).length : ℤ) ≤ M := by
  cases ts with
  | nil => simpa [admittedTimes] using hM
  | cons t rest =>
    have h4 : ∀ u ∈ t :: rest, t - W ≤ u - W := by
      intro u hu
      rcases List.mem_cons.mp hu with rfl | hu'
      · exact le_refl _
      · exact sub_le_sub_right (List.rel_of_sorted_cons hts u hu') W
    have h := admitted_window_bound M W a hW (t :: rest) [] (t - W) hts
      (by simp) (by simp) h4 (by simpa using hM)
    simpa using h

/-- Witness for C3: budget 1, window 10, two calls at times 1 and 2 — at most
one admitted time in the window `[0, 10]`. -/
theorem c3_witness :
    (((admittedTimes ⟨1, 10, []⟩ [1, 2]).filter
        (fun x => decide ((0 : ℚ) ≤ x ∧ x ≤ 0 + 10))).length : ℤ) ≤ 1 :=
  c3_sliding_window_bound 1 (by decide) 10 (by decide) [1, 2] (by decide) 0

/-- C8: on a deque in insertion (hence ascending) order, `check()` (i) first
drops exactly the timestamps older than `now - window_seconds` — the prefix
trim equals a filter by the cutoff —, (ii) admits iff the remaining count is
below `max_ops`, (iii) on admission the new deque is the trimmed one with
`now` appended, and (iv) on rejection the new deque is exactly the trimmed
one: a sublist of the old deque, so nothing is recorded. -/
theorem c8_check_spec (s : RateLimiter) (now : ℚ)
    (h : s.operations.Sorted (· ≤ ·)) :
    ((RateLimiter.check now s).1 = true ↔
      ((s.operations.filter
          (fun t => decide (now - s.window_seconds ≤ t))).length : ℤ) < s.max_ops) ∧
    ((RateLimiter.check now s).1 = true →
      (RateLimiter.check now s).2.operations =
        s.operations.filter (fun t => decide (now - s.window_seconds ≤ t)) ++ [now]) ∧
    ((RateLimiter.check now s).1 = false →
      (RateLimiter.check now s).2.operations =
        s.operations.filter (fun t => decide (now - s.window_seconds ≤ t))) ∧
    ((RateLimiter.check now s).1 = false →
      (RateLimiter.check now s).2.operations.Sublist s.operations) := by
  have htrim : s.operations.dropWhile (fun t => decide (t < now - s.window_seconds)) =
      s.operations.filter (fun t => decide (now - s.window_seconds ≤ t)) :=
    sorted_dropWhile_lt _ _ h
  unfold RateLimiter.check
  dsimp only
  rw [htrim]
  by_cases hlt : ((s.operations.filter
      (fun t => decide (now - s.window_seconds ≤ t))).length : ℤ) < s.max_ops
  · rw [if_pos hlt]
    exact ⟨by simpa using hlt, fun _ => rfl, by simp, by simp⟩
  · rw [if_neg hlt]
    exact ⟨by simpa using hlt, by simp, fun _ => rfl,
      fun _ => List.filter_sublist _⟩

/-- Witness for C8: a full sorted deque `[1, 2, 5]` with budget 2 and window
10 at time 12 — the cutoff-2 trim keeps `[2, 5]`, the call is rejected, and
the deque gains no entry. -/
theorem c8_witness :
    ((RateLimiter.check 12 ⟨2, 10, [1, 2, 5]⟩).1 = false →
      (RateLimiter.check 12 ⟨2, 10, [1, 2, 5]⟩).2.operations =
        ([(1 : ℚ), 2, 5]).filter
          (fun t => decide ((12 : ℚ) - (⟨2, 10, [1, 2, 5]⟩ : RateLimiter).window_seconds ≤ t))) ∧
    ((RateLimiter.check 12 ⟨2, 10, [1, 2, 5]⟩).1 = false →
      (RateLimiter.check 12 ⟨2, 10, [1, 2, 5]⟩).2.operations.Sublist [1, 2, 5]) :=
  ⟨(c8_check_spec ⟨2, 10, [1, 2, 5]⟩ 12 (by decide)).2.2.1,
   (c8_check_spec ⟨2, 10, [1, 2, 5]⟩ 12 (by decide)).2.2.2⟩
